import Mathlib

/-!
Verification of the turn/dispatch/concurrency core of the interactive-fiction
agent repository, as a shallow embedding in Lean 4.

The embedding follows the TypeScript sources:
* `Dialogue` (src/models/dialogue.ts): a bounded, role-tagged message log with
  FIFO trimming (`messages.splice(0, length - limit)` is `List.drop`).
* `BaseWorkflow.run` (src/workflows/base.ts): the per-workflow turn loop with
  score/move regex extraction, termination-pattern matching, and the
  catch-all error handler.  External effects (game API, model calls) are
  modelled by an explicit environment whose operations return `Except`.
* `WorkflowRunner` (src/runner.ts): sequential and batched-parallel modes,
  modelled at the level of result values (batching via `chunksOf`, which is
  the `slice(i, i + maxConcurrent)` loop).
* `BaseAgent.processMessage` (src/agents/base.ts): the tool-dispatch
  protocol, with model generations supplied by an environment.
* `AgentOrchestrator.getTotalTokenUsage` (src/agents/agent-orchestrator.ts).
* the comparison reductions of `runWorkflows` (src/index.ts).

JavaScript numbers that only ever hold token counts, scores, moves or times
are modelled as `Nat`; dollar costs and ratio comparisons use `ℚ`.
-/

/-- Message roles, as in the `CoreMessage` roles used by `Dialogue`. -/
inductive Role where
  | system
  | user
  | assistant
  | tool
deriving DecidableEq, Repr

/-- A dialogue message.  For `role = tool` the content is the stringified
tool result and the tool linkage fields are populated (dialogue.ts stores
these inside a one-element `tool-result` array; we flatten that wrapper). -/
structure Message where
  role : Role
  content : String
  toolCallId : Option String := none
  toolName : Option String := none
deriving DecidableEq, Repr

/-- The `Dialogue` class of src/models/dialogue.ts: an ordered message list
plus the immutable `limit` set at construction. -/
structure Dialogue where
  messages : List Message
  limit : Nat
deriving DecidableEq, Repr

/-- `new Dialogue(limit)`. -/
def Dialogue.new (limit : Nat) : Dialogue :=
  { messages := [], limit := limit }

/-- `trimMessages`: `if (messages.length > limit) messages.splice(0, length - limit)`.
`splice(0, k)` removes the first `k` elements, i.e. `List.drop k`. -/
def Dialogue.trimMessages (d : Dialogue) : Dialogue :=
  if d.messages.length > d.limit then
    { d with messages := d.messages.drop (d.messages.length - d.limit) }
  else d

/-- Common shape of the four append methods: push one message, then trim. -/
def Dialogue.push (d : Dialogue) (m : Message) : Dialogue :=
  Dialogue.trimMessages { d with messages := d.messages ++ [m] }

/-- `Dialogue.user` (content already stringified). -/
def Dialogue.user (d : Dialogue) (content : String) : Dialogue :=
  d.push { role := Role.user, content := content }

/-- `Dialogue.assistant`. -/
def Dialogue.assistant (d : Dialogue) (content : String) : Dialogue :=
  d.push { role := Role.assistant, content := content }

/-- `Dialogue.system`. -/
def Dialogue.system (d : Dialogue) (content : String) : Dialogue :=
  d.push { role := Role.system, content := content }

/-- `Dialogue.tool`: stores the tool linkage alongside the stringified result. -/
def Dialogue.tool (d : Dialogue) (toolCallId toolName result : String) : Dialogue :=
  d.push
    { role := Role.tool, content := result
      toolCallId := some toolCallId, toolName := some toolName }

/-- One append operation against a dialogue (which public method was called
and with which already-stringified payload). -/
inductive AppendOp where
  | user (content : String)
  | assistant (content : String)
  | system (content : String)
  | tool (toolCallId toolName result : String)
deriving DecidableEq, Repr

/-- The message a given append operation pushes. -/
def AppendOp.toMessage : AppendOp → Message
  | .user c => { role := Role.user, content := c }
  | .assistant c => { role := Role.assistant, content := c }
  | .system c => { role := Role.system, content := c }
  | .tool id name result =>
    { role := Role.tool, content := result
      toolCallId := some id, toolName := some name }

/-- Apply one append operation. -/
def Dialogue.applyOp (d : Dialogue) : AppendOp → Dialogue
  | .user c => d.user c
  | .assistant c => d.assistant c
  | .system c => d.system c
  | .tool id name result => d.tool id name result

/-- Apply a sequence of append operations in order. -/
def Dialogue.applyOps (d : Dialogue) (ops : List AppendOp) : Dialogue :=
  ops.foldl Dialogue.applyOp d

/-- The suffix of `l` of length `min limit l.length`: what FIFO trimming to
capacity `limit` retains. -/
def dropExcess (limit : Nat) (l : List α) : List α :=
  l.drop (l.length - limit)

/-- ASCII whitespace accepted by the `\s` class in the extraction regexes
(the inputs of interest are game transcripts, i.e. ASCII text). -/
def isSpaceChar (c : Char) : Bool :=
  c = ' ' || c = '\t' || c = '\n' || c = '\r' || c = '\x0b' || c = '\x0c'

/-- `parseInt(digits, 10)` on a nonempty digit capture. -/
def digitsToNat (ds : List Char) : Nat :=
  ds.foldl (fun n c => 10 * n + (c.toNat - '0'.toNat)) 0

/-- Match `pat` (given lowercase) as a case-insensitive prefix of the text;
on success return the remaining text. -/
def matchPrefixCI : List Char → List Char → Option (List Char)
  | [], rest => some rest
  | _ :: _, [] => none
  | p :: ps, c :: cs => if c.toLower = p then matchPrefixCI ps cs else none

/-- Left-to-right scan for the regex `label` `\s*(\d+)` (case-insensitive),
returning the parsed capture of the first match, as
`text.match(/Label:\s*(\d+)/i)` does.  If the label matches at a position but
no digit follows the whitespace, the scan resumes at the next position. -/
def findLabeledNumber (label : List Char) : List Char → Option Nat
  | [] => none
  | c :: rest =>
    match matchPrefixCI label (c :: rest) with
    | some after =>
      let afterWs := after.dropWhile isSpaceChar
      let ds := afterWs.takeWhile Char.isDigit
      if ds.isEmpty then findLabeledNumber label rest
      else some (digitsToNat ds)
    | none => findLabeledNumber label rest

/-- `text.match(/Score:\s*(\d+)/i)` + `parseInt` (base.ts turn loop). -/
def extractScore (text : String) : Option Nat :=
  findLabeledNumber "score:".toList text.toList

/-- `text.match(/Moves:\s*(\d+)/i)` + `parseInt`. -/
def extractMoves (text : String) : Option Nat :=
  findLabeledNumber "moves:".toList text.toList

/-- Substring test over char lists. -/
def containsSeq (pat : List Char) : List Char → Bool
  | [] => pat.isEmpty
  | c :: cs => pat.isPrefixOf (c :: cs) || containsSeq pat cs

/-- `/phrase/i.test(text)` for a literal phrase: case-insensitive substring. -/
def containsCI (phrase text : String) : Bool :=
  containsSeq (phrase.toList.map Char.toLower) (text.toList.map Char.toLower)

/-- The `gameEndPatterns` literals of `BaseWorkflow.run`. -/
def gameEndPatterns : List String :=
  ["you have died", "game over", "the end", "you have won", "thanks for playing"]

/-- `gameEndPatterns.some((pattern) => pattern.test(text))`. -/
def isGameEnd (text : String) : Bool :=
  gameEndPatterns.any (fun p => containsCI p text)

/-- `startGame` result: `{sessionId, text}`. -/
structure StartResult where
  sessionId : String
  text : String

/-- The workflow's external collaborators: the game session API and the
pluggable decision strategy (`gameLoop`).  Each operation may fail
(`Except.error` models a thrown exception).  `decide` and `respond` are
indexed by the turn number so that a stateful strategy or session is
expressible; `respond` also receives the command that was sent. -/
structure GameEnv where
  start : Except String StartResult
  setupResponse : Except String String
  decide : Nat → Dialogue → Except String String
  respond : Nat → String → Except String String

/-- The mutable state of `BaseWorkflow.run`'s turn loop; `iter` is the loop
variable `i` (the number of completed turns, i.e. commands sent). -/
structure LoopState where
  iter : Nat
  text : String
  dialogue : Dialogue
  score : Nat
  moves : Nat
  gameEnded : Bool
deriving Repr

/-- The turn loop of `BaseWorkflow.run` (`for (let i = 0; i < maxIterations; i++)`),
with `fuel` the remaining iterations.  Each iteration: re-extract score/moves
from the last text (retaining old values on failure), obtain a command from
the strategy, send it, append the response as a user message, and stop if a
termination pattern matches. -/
def runTurns (env : GameEnv) : Nat → LoopState → Except String LoopState
  | 0, st => Except.ok st
  | fuel + 1, st =>
    let score := (extractScore st.text).getD st.score
    let moves := (extractMoves st.text).getD st.moves
    match env.decide st.iter st.dialogue with
    | Except.error e => Except.error e
    | Except.ok command =>
      match env.respond st.iter command with
      | Except.error e => Except.error e
      | Except.ok text =>
        let dialogue := st.dialogue.user text
        if isGameEnd text then
          Except.ok { iter := st.iter + 1, text := text, dialogue := dialogue
                      score := score, moves := moves, gameEnded := true }
        else
          runTurns env fuel { iter := st.iter + 1, text := text, dialogue := dialogue
                              score := score, moves := moves, gameEnded := false }

/-- What `BaseWorkflow.run` returns (`usage` accounting lives with the
agents/workflow subclasses and is orthogonal to this record). -/
structure RunResult where
  score : Nat
  moves : Nat
  gameEnded : Bool
deriving DecidableEq, Repr

/-- The loop state just before the first iteration: score and moves start at
`0`, the dialogue holds the initial game text as its first user message. -/
def initialLoopState (dialogueLimit : Nat) (text : String) : LoopState :=
  { iter := 0, text := text, dialogue := (Dialogue.new dialogueLimit).user text
    score := 0, moves := 0, gameEnded := false }

/-- The `try` block of `BaseWorkflow.run`: start the session, send the
unconditional `"verbose"` setup command (response discarded), seed the
dialogue with the initial text, run the turn loop, then re-extract
score/moves from the final text. -/
def BaseWorkflow.runCore (maxIterations dialogueLimit : Nat) (env : GameEnv) :
    Except String RunResult :=
  match env.start with
  | Except.error e => Except.error e
  | Except.ok init =>
    match env.setupResponse with
    | Except.error e => Except.error e
    | Except.ok _ =>
      match runTurns env maxIterations (initialLoopState dialogueLimit init.text) with
      | Except.error e => Except.error e
      | Except.ok st =>
        let score := (extractScore st.text).getD st.score
        let moves := (extractMoves st.text).getD st.moves
        Except.ok { score := score, moves := moves, gameEnded := st.gameEnded }

/-- `BaseWorkflow.run`: the `try`/`catch` — any exception yields the degraded
`{score: 0, moves: 0, gameEnded: false}` result instead of propagating. -/
def BaseWorkflow.run (maxIterations dialogueLimit : Nat) (env : GameEnv) : RunResult :=
  match BaseWorkflow.runCore maxIterations dialogueLimit env with
  | Except.ok r => r
  | Except.error _ => { score := 0, moves := 0, gameEnded := false }


/-- What `WorkflowRunner` needs of a workflow: its name and its (possibly
throwing) `run()` computation. -/
structure RunnerWorkflow where
  name : String
  run : Except String RunResult

/-- `WorkflowResult` (runner.ts), restricted to the fields the claims are
about; `completed` is the workflow's `gameEnded` flag. -/
structure WorkflowResult where
  name : String
  score : Nat
  moves : Nat
  completed : Bool
deriving DecidableEq, Repr

/-- `WorkflowRunner.runWorkflow`: run one workflow; its `try`/`catch` turns
an exception into the degraded result (zero score/moves, not completed)
instead of propagating. -/
def WorkflowRunner.runWorkflow (w : RunnerWorkflow) : WorkflowResult :=
  match w.run with
  | Except.ok r =>
    { name := w.name, score := r.score, moves := r.moves, completed := r.gameEnded }
  | Except.error _ =>
    { name := w.name, score := 0, moves := 0, completed := false }

/-- `WorkflowRunner.runSequential`: one at a time, in input order. -/
def WorkflowRunner.runSequential (ws : List RunnerWorkflow) : List WorkflowResult :=
  ws.map WorkflowRunner.runWorkflow

/-- The chunking loop of `runParallel`:
`for (let i = 0; i < n; i += c) slice(i, i + c)` (meaningful for `c ≥ 1`). -/
def chunksOf (c : Nat) : List α → List (List α)
  | [] => []
  | x :: xs => (x :: xs.take (c - 1)) :: chunksOf c (xs.drop (c - 1))
termination_by l => l.length
decreasing_by simp; omega

/-- `WorkflowRunner.runParallel`, at the level of result values: an
unbounded cap (`maxConcurrent <= 0`, here `= 0` on `Nat`, or at least the
workflow count) runs everything as one group; otherwise consecutive batches
of `maxConcurrent` are fully processed in order and their results
concatenated (`Promise.all` preserves input order within a batch). -/
def WorkflowRunner.runParallel (ws : List RunnerWorkflow) (maxConcurrent : Nat) :
    List WorkflowResult :=
  if maxConcurrent = 0 ∨ ws.length ≤ maxConcurrent then
    ws.map WorkflowRunner.runWorkflow
  else
    ((chunksOf maxConcurrent ws).map
      (fun batch => batch.map WorkflowRunner.runWorkflow)).flatten

/-- `runAll`: mode selection. -/
def WorkflowRunner.runAll (ws : List RunnerWorkflow) (parallel : Bool)
    (maxConcurrent : Nat) : List WorkflowResult :=
  if parallel then WorkflowRunner.runParallel ws maxConcurrent
  else WorkflowRunner.runSequential ws

/-- One row of the `results` array compared by `runWorkflows` (index.ts),
with `usage.totalTokens` flattened to a field and the dollar cost in `ℚ`. -/
structure ComparisonResult where
  displayName : String
  score : Nat
  moves : Nat
  executionTimeMs : Nat
  totalTokens : Nat
  estimatedCost : ℚ
deriving DecidableEq, Repr

/-- `Array.prototype.reduce(f)` without an initial value: the head seeds the
accumulator; an empty array throws (modelled as `none`). -/
def reduceD (f : α → α → α) : List α → Option α
  | [] => none
  | x :: xs => some (xs.foldl f x)

/-- `results.reduce((best, current) => current.score > best.score ? current : best)`. -/
def bestByScore (results : List ComparisonResult) : Option ComparisonResult :=
  reduceD (fun best current => if current.score > best.score then current else best)
    results

/-- The score-per-move reduce, skipping zero-`moves` candidates. -/
def mostEfficient (results : List ComparisonResult) : Option ComparisonResult :=
  reduceD (fun best current =>
    if current.moves = 0 then best
    else if best.moves = 0 then current
    else if (current.score : ℚ) / (current.moves : ℚ) >
        (best.score : ℚ) / (best.moves : ℚ) then current else best) results

/-- `results.reduce((best, current) => current.executionTimeMs < best.executionTimeMs ? current : best)`. -/
def fastest (results : List ComparisonResult) : Option ComparisonResult :=
  reduceD (fun best current =>
    if current.executionTimeMs < best.executionTimeMs then current else best) results

/-- The score-per-token reduce, skipping zero-token candidates. -/
def mostTokenEfficient (results : List ComparisonResult) : Option ComparisonResult :=
  reduceD (fun best current =>
    if current.totalTokens = 0 then best
    else if best.totalTokens = 0 then current
    else if (current.score : ℚ) / (current.totalTokens : ℚ) >
        (best.score : ℚ) / (best.totalTokens : ℚ) then current else best) results

/-- The score-per-dollar reduce, skipping zero-cost candidates. -/
def mostCostEfficient (results : List ComparisonResult) : Option ComparisonResult :=
  reduceD (fun best current =>
    if current.estimatedCost = 0 then best
    else if best.estimatedCost = 0 then current
    else if (current.score : ℚ) / current.estimatedCost >
        (best.score : ℚ) / best.estimatedCost then current else best) results

/-- `b` is the first maximiser of `key` in `l`: everything before it is
strictly smaller, everything after it no larger (linear scan, first wins). -/
def FirstArgmax {α : Type} {β : Type} [LinearOrder β] (key : α → β)
    (l : List α) (b : α) : Prop :=
  ∃ l₁ l₂, l = l₁ ++ b :: l₂ ∧ (∀ x ∈ l₁, key x < key b) ∧ ∀ x ∈ l₂, key x ≤ key b

/-- `b` is the first minimiser of `key` in `l`. -/
def FirstArgmin {α : Type} {β : Type} [LinearOrder β] (key : α → β)
    (l : List α) (b : α) : Prop :=
  ∃ l₁ l₂, l = l₁ ++ b :: l₂ ∧ (∀ x ∈ l₁, key b < key x) ∧ ∀ x ∈ l₂, key b ≤ key x

/-- `LanguageModelUsage`: accumulated token counts for one model. -/
structure Usage where
  promptTokens : Nat
  completionTokens : Nat
  totalTokens : Nat
deriving DecidableEq, Repr

/-- Componentwise accumulation (`+=` on each field). -/
def Usage.add (a b : Usage) : Usage :=
  { promptTokens := a.promptTokens + b.promptTokens
    completionTokens := a.completionTokens + b.completionTokens
    totalTokens := a.totalTokens + b.totalTokens }

def Usage.zero : Usage :=
  { promptTokens := 0, completionTokens := 0, totalTokens := 0 }

/-- `BaseAgent.trackModelUsage` on the `modelUsage` map (a JS `Map`:
insertion-ordered association list with unique keys): add into the existing
entry, or insert a fresh copy. -/
def trackModelUsage : List (String × Usage) → String → Usage → List (String × Usage)
  | [], modelName, usage => [(modelName, usage)]
  | (k, v) :: rest, modelName, usage =>
    if k = modelName then (k, v.add usage) :: rest
    else (k, v) :: trackModelUsage rest modelName usage

/-- `getTotalUsage`: componentwise sum of all per-model usages. -/
def getTotalUsage (modelUsage : List (String × Usage)) : Usage :=
  modelUsage.foldl (fun acc kv => acc.add kv.2) Usage.zero

/-- The discriminated union generated in `processWithTools`: `respond` with
free text, or one variant per tool name carrying that tool's parameters
(parameter payloads kept abstract as strings). -/
inductive Decision where
  | respond (response : String)
  | call (action : String) (parameters : String)

/-- A registered tool: name plus `execute` handler (which may throw). -/
structure AgentTool where
  name : String
  execute : String → Except String String

/-- The fixed per-agent data `processMessage` consults. -/
structure BaseAgent where
  modelId : String
  id : String
  tools : List AgentTool

/-- The mutable per-agent state: the dialogue and the usage map. -/
structure AgentState where
  dialogue : Dialogue
  modelUsage : List (String × Usage)

/-- `this.trackModelUsage(this.model.modelId, usage)`. -/
def AgentState.track (st : AgentState) (modelId : String) (u : Usage) : AgentState :=
  { st with modelUsage := trackModelUsage st.modelUsage modelId u }

/-- The model-generation collaborator: `generateObject` (constrained to the
decision union) and `generateText`, each returning a value plus its usage
record, or raising. -/
structure GenEnv where
  genObject : List Message → Except String (Decision × Usage)
  genText : List Message → Except String (String × Usage)

/-- `processToolResult`: one free-text generation over the updated dialogue,
appended as the final assistant reply and returned. -/
def processToolResult (env : GenEnv) (agent : BaseAgent) (st : AgentState) :
    Except String (String × AgentState) :=
  match env.genText st.dialogue.messages with
  | Except.error e => Except.error e
  | Except.ok (text, usage) =>
    let st := st.track agent.modelId usage
    Except.ok (text, { st with dialogue := st.dialogue.assistant text })

/-- `processWithTools` (the incoming user message was already appended by
`processMessage`): generate a decision; `respond` is appended and returned;
an unknown tool name or a handler exception becomes a synthetic assistant
error message; a successful tool call appends the `tool` message (correlated
by the agent id) and delegates to `processToolResult`. -/
def processWithTools (env : GenEnv) (agent : BaseAgent) (st : AgentState) :
    Except String (String × AgentState) :=
  match env.genObject st.dialogue.messages with
  | Except.error e => Except.error e
  | Except.ok (decision, usage) =>
    let st := st.track agent.modelId usage
    match decision with
    | Decision.respond response =>
      Except.ok (response, { st with dialogue := st.dialogue.assistant response })
    | Decision.call action parameters =>
      match agent.tools.find? (fun tl => tl.name = action) with
      | none =>
        let errorMessage := "Tool " ++ action ++ " not found"
        Except.ok (errorMessage,
          { st with dialogue := st.dialogue.assistant errorMessage })
      | some tl =>
        match tl.execute parameters with
        | Except.ok toolResult =>
          processToolResult env agent
            { st with dialogue := st.dialogue.tool agent.id tl.name toolResult }
        | Except.error err =>
          let errorMessage := "Error executing tool " ++ tl.name ++ ": " ++ err
          Except.ok (errorMessage,
            { st with dialogue := st.dialogue.assistant errorMessage })

/-- `processWithoutTools`: plain text generation. -/
def processWithoutTools (env : GenEnv) (agent : BaseAgent) (st : AgentState) :
    Except String (String × AgentState) :=
  match env.genText st.dialogue.messages with
  | Except.error e => Except.error e
  | Except.ok (text, usage) =>
    let st := st.track agent.modelId usage
    Except.ok (text, { st with dialogue := st.dialogue.assistant text })

/-- `BaseAgent.processMessage`: append the user message, then dispatch on
whether any tools are registered. -/
def processMessage (env : GenEnv) (agent : BaseAgent) (st : AgentState)
    (message : String) : Except String (String × AgentState) :=
  let st := { st with dialogue := st.dialogue.user message }
  if agent.tools.length > 0 then processWithTools env agent st
  else processWithoutTools env agent st

/-- The roles of a dialogue's messages, in order. -/
def rolesOf (d : Dialogue) : List Role :=
  d.messages.map Message.role

/-- Ordered-subsequence test on role lists ("the dialogue contains, in
order, messages with these roles"). -/
def roleSubseq : List Role → List Role → Bool
  | [], _ => true
  | _ :: _, [] => false
  | p :: ps, r :: rs => if p = r then roleSubseq ps rs else roleSubseq (p :: ps) rs

/-- The usage maps of an `AgentOrchestrator`: its own (`super`) plus its five
child agents (game, memory, goal, puzzle solver, map). -/
structure AgentOrchestrator where
  own : List (String × Usage)
  gameAgent : List (String × Usage)
  memoryAgent : List (String × Usage)
  goalAgent : List (String × Usage)
  puzzleSolverAgent : List (String × Usage)
  mapAgent : List (String × Usage)

/-- `AgentOrchestrator.getTotalTokenUsage`: recomputed on each call as the
componentwise sum of `super.getTotalUsage()` and every child's
`getTotalUsage()`. -/
def AgentOrchestrator.getTotalTokenUsage (o : AgentOrchestrator) : Usage :=
  let baseUsage := getTotalUsage o.own
  let gameUsage := getTotalUsage o.gameAgent
  let memoryUsage := getTotalUsage o.memoryAgent
  let goalUsage := getTotalUsage o.goalAgent
  let puzzleUsage := getTotalUsage o.puzzleSolverAgent
  let mapUsage := getTotalUsage o.mapAgent
  { promptTokens := baseUsage.promptTokens + gameUsage.promptTokens +
      memoryUsage.promptTokens + goalUsage.promptTokens +
      puzzleUsage.promptTokens + mapUsage.promptTokens
    completionTokens := baseUsage.completionTokens + gameUsage.completionTokens +
      memoryUsage.completionTokens + goalUsage.completionTokens +
      puzzleUsage.completionTokens + mapUsage.completionTokens
    totalTokens := baseUsage.totalTokens + gameUsage.totalTokens +
      memoryUsage.totalTokens + goalUsage.totalTokens +
      puzzleUsage.totalTokens + mapUsage.totalTokens }

/-- A session whose first response is harmless and whose second response
reports death (concrete instance for the termination claim). -/
def envDeathAtTurnTwo : GameEnv :=
  { start := Except.ok { sessionId := "s1", text := "West of House" }
    setupResponse := Except.ok "Maximum verbosity."
    decide := fun _ _ => Except.ok "north"
    respond := fun i _ =>
      Except.ok (if i = 0 then "You are in a forest." else "You have died.") }

/-- A session that never produces a terminating response. -/
def envNeverEnds : GameEnv :=
  { start := Except.ok { sessionId := "s2", text := "West of House" }
    setupResponse := Except.ok "Maximum verbosity."
    decide := fun _ _ => Except.ok "wait"
    respond := fun _ _ => Except.ok "Time passes." }

/-- A session whose start call throws. -/
def envStartFails : GameEnv :=
  { start := Except.error "connection refused"
    setupResponse := Except.ok "Maximum verbosity."
    decide := fun _ _ => Except.ok "wait"
    respond := fun _ _ => Except.ok "Time passes." }

/-- A session whose reported `Moves:` counter goes backwards between the
first and second responses. -/
def envMovesBackwards : GameEnv :=
  { start := Except.ok { sessionId := "s3", text := "West of House" }
    setupResponse := Except.ok "Maximum verbosity."
    decide := fun _ _ => Except.ok "wait"
    respond := fun i _ =>
      Except.ok (if i = 0 then "Moves: 5" else if i = 1 then "Moves: 3"
        else "Time passes.") }

/-- A tool whose handler succeeds. -/
def lampTool : AgentTool :=
  { name := "light_lamp", execute := fun _ => Except.ok "The lamp is lit." }

/-- An agent with exactly that one tool registered. -/
def lampAgent : BaseAgent :=
  { modelId := "m1", id := "agent-1", tools := [lampTool] }

/-- Generations: the decision selects `light_lamp`; the follow-up free-text
generation produces the final reply. -/
def lampGenEnv : GenEnv :=
  { genObject := fun _ =>
      Except.ok (Decision.call "light_lamp" "brass lantern", Usage.mk 3 2 5)
    genText := fun _ => Except.ok ("The lamp is now lit.", Usage.mk 4 3 7) }

/-- Fresh agent state: the dialogue is seeded with the system prompt. -/
def lampStartState : AgentState :=
  { dialogue := (Dialogue.new 50).system "You are a helpful assistant."
    modelUsage := [] }

/-- Three runner workflows, the middle one failing. -/
def wfA : RunnerWorkflow :=
  { name := "A", run := Except.ok { score := 10, moves := 4, gameEnded := true } }

def wfB : RunnerWorkflow :=
  { name := "B", run := Except.error "session exploded" }

def wfC : RunnerWorkflow :=
  { name := "C", run := Except.ok { score := 7, moves := 2, gameEnded := false } }


/-- Three comparison rows: the first has zero moves and zero cost, the other
two tie on time and on the score-per-move ratio. -/
def sampleResults : List ComparisonResult :=
  [ { displayName := "A", score := 10, moves := 0, executionTimeMs := 100
      totalTokens := 50, estimatedCost := 0 }
  , { displayName := "B", score := 6, moves := 3, executionTimeMs := 80
      totalTokens := 0, estimatedCost := 1/2 }
  , { displayName := "C", score := 6, moves := 3, executionTimeMs := 80
      totalTokens := 25, estimatedCost := 1/4 } ]

-- ## Theorems

theorem dropExcess_eq_rtake (limit : Nat) (l : List α) :
    dropExcess limit l = l.rtake limit := rfl

theorem dropExcess_of_le {limit : Nat} {l : List α} (h : l.length ≤ limit) :
    dropExcess limit l = l := by
  simp [dropExcess, Nat.sub_eq_zero_of_le h]

theorem length_dropExcess (limit : Nat) (l : List α) :
    (dropExcess limit l).length = min limit l.length := by
  simp [dropExcess]
  omega

theorem dropExcess_le_length (limit : Nat) (l : List α) :
    (dropExcess limit l).length ≤ limit := by
  rw [length_dropExcess]; omega

theorem dropExcess_suffix (limit : Nat) (l : List α) :
    dropExcess limit l <:+ l :=
  List.drop_suffix _ _

theorem dropExcess_eq_reverse (limit : Nat) (l : List α) :
    dropExcess limit l = (l.reverse.take limit).reverse := by
  rw [dropExcess_eq_rtake, List.rtake_eq_reverse_take_reverse]

/-- Trimming an already-trimmed-and-extended list is the same as trimming the
whole history at once: FIFO trimming is absorbed under later appends. -/
theorem dropExcess_append (limit : Nat) (l r : List α) :
    dropExcess limit (dropExcess limit l ++ r) = dropExcess limit (l ++ r) := by
  apply List.reverse_injective
  rw [dropExcess_eq_reverse, dropExcess_eq_reverse, dropExcess_eq_reverse]
  simp only [List.reverse_reverse, List.reverse_append]
  rw [List.take_append_eq_append_take, List.take_append_eq_append_take]
  congr 1
  rw [List.take_take, Nat.min_eq_left (Nat.sub_le _ _)]

/-- `trimMessages` always leaves exactly the trailing `min limit length`
messages (when no trim is needed this is the whole list). -/
theorem Dialogue.trimMessages_eq (d : Dialogue) :
    d.trimMessages = { d with messages := dropExcess d.limit d.messages } := by
  unfold Dialogue.trimMessages
  by_cases h : d.messages.length > d.limit
  · simp [h, dropExcess]
  · rw [if_neg h, dropExcess_of_le (by omega : d.messages.length ≤ d.limit)]

theorem Dialogue.push_messages (d : Dialogue) (m : Message) :
    (d.push m).messages = dropExcess d.limit (d.messages ++ [m]) := by
  rw [Dialogue.push, Dialogue.trimMessages_eq]

theorem Dialogue.push_limit (d : Dialogue) (m : Message) :
    (d.push m).limit = d.limit := by
  rw [Dialogue.push, Dialogue.trimMessages_eq]

theorem Dialogue.applyOp_eq_push (d : Dialogue) (op : AppendOp) :
    d.applyOp op = d.push op.toMessage := by
  cases op <;> rfl

/-- Master characterisation of a dialogue after a sequence of appends:
starting from a within-capacity state, the retained messages are exactly the
FIFO-trimmed concatenation of the old messages and all appended messages. -/
theorem Dialogue.applyOps_messages (ops : List AppendOp) :
    ∀ d : Dialogue, d.messages.length ≤ d.limit →
      (d.applyOps ops).messages =
        dropExcess d.limit (d.messages ++ ops.map AppendOp.toMessage) ∧
      (d.applyOps ops).limit = d.limit := by
  induction ops with
  | nil =>
    intro d h
    simp [Dialogue.applyOps, dropExcess_of_le h]
  | cons op ops ih =>
    intro d h
    have hstep : d.applyOp op = d.push op.toMessage := Dialogue.applyOp_eq_push d op
    have hmsgs := Dialogue.push_messages d op.toMessage
    have hlim := Dialogue.push_limit d op.toMessage
    have hlen : (d.push op.toMessage).messages.length ≤ (d.push op.toMessage).limit := by
      rw [hmsgs, hlim]; exact dropExcess_le_length _ _
    have := ih (d.push op.toMessage) hlen
    constructor
    · rw [Dialogue.applyOps, List.foldl_cons, hstep, ← Dialogue.applyOps, this.1,
        hmsgs, hlim, List.map_cons, dropExcess_append]
      simp
    · rw [Dialogue.applyOps, List.foldl_cons, hstep, ← Dialogue.applyOps, this.2, hlim]

example : extractScore "Your Score: 12 (Moves: 34)" = some 12 := by rfl
example : extractMoves "Your Score: 12 (Moves: 34)" = some 34 := by rfl
example : extractScore "score for you" = none := by rfl
example : isGameEnd "You Have Died." = true := by rfl
example : isGameEnd "West of House" = false := by rfl

/-- **C1**: a `Dialogue` constructed with capacity `N` holds, after any
sequence of appends (hence after each individual append, which is the same
statement at a prefix of the sequence), at most `N` messages, and exactly the
most recently appended ones: the FIFO-trimmed suffix of the append history. -/
theorem bounded_dialogue_fifo (N : Nat) (ops : List AppendOp) :
    ((Dialogue.new N).applyOps ops).messages =
      dropExcess N (ops.map AppendOp.toMessage) ∧
    ((Dialogue.new N).applyOps ops).messages.length ≤ N ∧
    ((Dialogue.new N).applyOps ops).messages <:+ ops.map AppendOp.toMessage := by
  have h := Dialogue.applyOps_messages ops (Dialogue.new N) (by simp [Dialogue.new])
  have hm : ((Dialogue.new N).applyOps ops).messages =
      dropExcess N (ops.map AppendOp.toMessage) := by
    simpa [Dialogue.new] using h.1
  refine ⟨hm, ?_, ?_⟩
  · rw [hm]
    exact dropExcess_le_length _ _
  · rw [hm]
    exact dropExcess_suffix _ _

/-- **C10**: the system message seeded at agent construction receives no
special treatment from trimming: as soon as the total number of messages ever
appended exceeds the capacity `N` (i.e. at least `N` appends follow the
seed), the seeded system message is evicted — the dialogue retains only the
trimmed suffix of the later appends, and (provided no later append pushed an
identical message) the seeded message no longer occurs at all. -/
theorem seeded_system_message_evicted (N : Nat) (sysPrompt : String)
    (ops : List AppendOp) (hlen : N ≤ ops.length) :
    (((Dialogue.new N).system sysPrompt).applyOps ops).messages =
      dropExcess N (ops.map AppendOp.toMessage) ∧
    (({ role := Role.system, content := sysPrompt } : Message) ∉
        ops.map AppendOp.toMessage →
      ({ role := Role.system, content := sysPrompt } : Message) ∉
        (((Dialogue.new N).system sysPrompt).applyOps ops).messages) := by
  have hseed_msgs : ((Dialogue.new N).system sysPrompt).messages =
      dropExcess N [{ role := Role.system, content := sysPrompt }] := by
    rw [Dialogue.system, Dialogue.push_messages]
    rfl
  have hseed_lim : ((Dialogue.new N).system sysPrompt).limit = N := by
    rw [Dialogue.system, Dialogue.push_limit]; rfl
  have h := Dialogue.applyOps_messages ops ((Dialogue.new N).system sysPrompt)
    (by rw [hseed_msgs, hseed_lim]; exact dropExcess_le_length _ _)
  rw [hseed_msgs, hseed_lim] at h
  have habsorb := dropExcess_append N
    [({ role := Role.system, content := sysPrompt } : Message)]
    (ops.map AppendOp.toMessage)
  have hmain : (((Dialogue.new N).system sysPrompt).applyOps ops).messages =
      dropExcess N (ops.map AppendOp.toMessage) := by
    rw [h.1, habsorb]
    show dropExcess N ({ role := Role.system, content := sysPrompt } ::
      ops.map AppendOp.toMessage) = _
    unfold dropExcess
    have hL : (({ role := Role.system, content := sysPrompt } : Message) ::
        ops.map AppendOp.toMessage).length = ops.length + 1 := by simp
    rw [hL, List.length_map]
    have : ops.length + 1 - N = (ops.length - N) + 1 := by omega
    rw [this, List.drop_succ_cons]
  refine ⟨hmain, fun hnotin hmem => hnotin ?_⟩
  rw [hmain] at hmem
  exact (dropExcess_suffix _ _).subset hmem

/-- If the decision strategy always yields a command and no session response
ever matches a termination pattern, the turn loop consumes all its fuel,
incrementing the turn counter each time, and never sets `gameEnded`. -/
theorem runTurns_no_end (env : GameEnv)
    (hdec : ∀ i d, ∃ c, env.decide i d = Except.ok c)
    (hresp : ∀ i c, ∃ t, env.respond i c = Except.ok t ∧ isGameEnd t = false) :
    ∀ (fuel : Nat) (st : LoopState), st.gameEnded = false →
      ∃ st', runTurns env fuel st = Except.ok st' ∧
        st'.iter = st.iter + fuel ∧ st'.gameEnded = false := by
  intro fuel
  induction fuel with
  | zero =>
    intro st h
    exact ⟨st, rfl, by omega, h⟩
  | succ n ih =>
    intro st h
    obtain ⟨c, hc⟩ := hdec st.iter st.dialogue
    obtain ⟨t, ht, hend⟩ := hresp st.iter c
    obtain ⟨st', h1, h2, h3⟩ := ih
      { iter := st.iter + 1, text := t, dialogue := st.dialogue.user t
        score := (extractScore st.text).getD st.score
        moves := (extractMoves st.text).getD st.moves, gameEnded := false } rfl
    have h2' : st'.iter = st.iter + 1 + n := h2
    refine ⟨st', ?_, by omega, h3⟩
    simp only [runTurns, hc, ht, hend]
    simpa using h1

/-- If responses before turn `t` never match a termination pattern but the
response at turn `t` does, the loop breaks at turn `t`: `gameEnded` is set
and exactly `t + 1` commands have been sent. -/
theorem runTurns_break (env : GameEnv) (t : Nat)
    (hdec : ∀ i d, i ≤ t → ∃ c, env.decide i d = Except.ok c)
    (hresp : ∀ i c, i < t → ∃ r, env.respond i c = Except.ok r ∧ isGameEnd r = false)
    (hend : ∀ c, ∃ r, env.respond t c = Except.ok r ∧ isGameEnd r = true) :
    ∀ (fuel : Nat) (st : LoopState), t < st.iter + fuel → st.iter ≤ t →
      ∃ st', runTurns env fuel st = Except.ok st' ∧
        st'.gameEnded = true ∧ st'.iter = t + 1 := by
  intro fuel
  induction fuel with
  | zero =>
    intro st h1 h2
    omega
  | succ n ih =>
    intro st h1 h2
    rcases Nat.lt_or_ge st.iter t with hlt | hge
    · obtain ⟨c, hc⟩ := hdec st.iter st.dialogue h2
      obtain ⟨r, hr, hrend⟩ := hresp st.iter c hlt
      obtain ⟨st', hs1, hs2, hs3⟩ := ih
        { iter := st.iter + 1, text := r, dialogue := st.dialogue.user r
          score := (extractScore st.text).getD st.score
          moves := (extractMoves st.text).getD st.moves, gameEnded := false }
        (by simp; omega) (by simp; omega)
      refine ⟨st', ?_, hs2, hs3⟩
      simp only [runTurns, hc, hr, hrend]
      simpa using hs1
    · have hit : st.iter = t := by omega
      obtain ⟨c, hc⟩ := hdec st.iter st.dialogue h2
      obtain ⟨r, hr, hrend⟩ := hend c
      rw [hit] at hc
      refine ⟨{ iter := st.iter + 1, text := r, dialogue := st.dialogue.user r
                score := (extractScore st.text).getD st.score
                moves := (extractMoves st.text).getD st.moves
                gameEnded := true }, ?_, rfl, by simp [hit]⟩
      simp only [runTurns, hit, hc, hr, hrend]
      simp

/-- **C3**: if the decision strategy always returns a command and no session
response ever matches a termination pattern, the turn loop executes exactly
`maxIterations` turns (one command per turn) and the run finishes as an
ordinary non-error result with `gameEnded = false`. -/
theorem run_exhausts_iteration_budget (maxIterations dialogueLimit : Nat)
    (env : GameEnv) (init : StartResult) (setupText : String)
    (hstart : env.start = Except.ok init)
    (hsetup : env.setupResponse = Except.ok setupText)
    (hdec : ∀ i d, ∃ c, env.decide i d = Except.ok c)
    (hresp : ∀ i c, ∃ t, env.respond i c = Except.ok t ∧ isGameEnd t = false) :
    ∃ st, runTurns env maxIterations (initialLoopState dialogueLimit init.text) =
        Except.ok st ∧
      st.iter = maxIterations ∧ st.gameEnded = false ∧
      BaseWorkflow.runCore maxIterations dialogueLimit env =
        Except.ok { score := (extractScore st.text).getD st.score
                    moves := (extractMoves st.text).getD st.moves
                    gameEnded := false } ∧
      (BaseWorkflow.run maxIterations dialogueLimit env).gameEnded = false := by
  obtain ⟨st, h1, h2, h3⟩ := runTurns_no_end env hdec hresp maxIterations
    (initialLoopState dialogueLimit init.text) rfl
  have h2' : st.iter = maxIterations := by
    have h2'' : st.iter = (initialLoopState dialogueLimit init.text).iter +
        maxIterations := h2
    simpa [initialLoopState] using h2''
  have hcore : BaseWorkflow.runCore maxIterations dialogueLimit env =
      Except.ok { score := (extractScore st.text).getD st.score
                  moves := (extractMoves st.text).getD st.moves
                  gameEnded := false } := by
    simp only [BaseWorkflow.runCore, hstart, hsetup, h1, h3]
  refine ⟨st, h1, h2', h3, hcore, ?_⟩
  simp [BaseWorkflow.run, hcore]

/-- Witness for `run_exhausts_iteration_budget`: a 4-iteration run against a
session whose responses never terminate. -/
theorem run_exhausts_iteration_budget_witness :
    ∃ st, runTurns envNeverEnds 4 (initialLoopState 50 "West of House") =
        Except.ok st ∧
      st.iter = 4 ∧ st.gameEnded = false ∧
      BaseWorkflow.runCore 4 50 envNeverEnds =
        Except.ok { score := (extractScore st.text).getD st.score
                    moves := (extractMoves st.text).getD st.moves
                    gameEnded := false } ∧
      (BaseWorkflow.run 4 50 envNeverEnds).gameEnded = false :=
  run_exhausts_iteration_budget 4 50 envNeverEnds
    { sessionId := "s2", text := "West of House" } "Maximum verbosity." rfl rfl
    (fun _ _ => ⟨"wait", rfl⟩)
    (fun _ _ => ⟨"Time passes.", rfl, by decide⟩)

/-- **C2**: the termination phrases are exactly "you have died" (death),
"game over", "the end", "you have won" (victory) and "thanks for playing",
tested case-insensitively as substrings; if the response of 0-based turn `t`
matches one and no earlier response does, the loop stops at that turn
(`t + 1` commands sent) and the run reports `gameEnded = true`.  At `t = 1`
this is the "second response says you have died ⇒ exactly 2 turns,
completed" instance. -/
theorem run_stops_on_termination_pattern (maxIterations dialogueLimit t : Nat)
    (env : GameEnv) (init : StartResult) (setupText : String)
    (hstart : env.start = Except.ok init)
    (hsetup : env.setupResponse = Except.ok setupText)
    (hdec : ∀ i d, i ≤ t → ∃ c, env.decide i d = Except.ok c)
    (hresp : ∀ i c, i < t → ∃ r, env.respond i c = Except.ok r ∧ isGameEnd r = false)
    (hend : ∀ c, ∃ r, env.respond t c = Except.ok r ∧ isGameEnd r = true)
    (ht : t < maxIterations) :
    (∀ s, isGameEnd s = (containsCI "you have died" s || containsCI "game over" s ||
      containsCI "the end" s || containsCI "you have won" s ||
      containsCI "thanks for playing" s)) ∧
    ∃ st, runTurns env maxIterations (initialLoopState dialogueLimit init.text) =
        Except.ok st ∧
      st.gameEnded = true ∧ st.iter = t + 1 ∧
      (BaseWorkflow.run maxIterations dialogueLimit env).gameEnded = true := by
  constructor
  · intro s
    simp [isGameEnd, gameEndPatterns, Bool.or_assoc]
  · obtain ⟨st, h1, h2, h3⟩ := runTurns_break env t hdec hresp hend maxIterations
      (initialLoopState dialogueLimit init.text)
      (by simp only [initialLoopState]; omega)
      (by simp only [initialLoopState]; omega)
    refine ⟨st, h1, h2, h3, ?_⟩
    simp [BaseWorkflow.run, BaseWorkflow.runCore, hstart, hsetup, h1, h2]

/-- Witness for `run_stops_on_termination_pattern`: the second response says
"You have died.", so the run completes after exactly 2 turns. -/
theorem run_stops_on_termination_pattern_witness :
    ∃ st, runTurns envDeathAtTurnTwo 10 (initialLoopState 50 "West of House") =
        Except.ok st ∧
      st.gameEnded = true ∧ st.iter = 1 + 1 ∧
      (BaseWorkflow.run 10 50 envDeathAtTurnTwo).gameEnded = true :=
  (run_stops_on_termination_pattern 10 50 1 envDeathAtTurnTwo
    { sessionId := "s1", text := "West of House" } "Maximum verbosity." rfl rfl
    (fun _ _ _ => ⟨"north", rfl⟩)
    (fun i c hi => by
      have hi0 : i = 0 := by omega
      subst hi0
      exact ⟨"You are in a forest.", rfl, by decide⟩)
    (fun _ => ⟨"You have died.", rfl, by decide⟩)
    (by omega)).2

/-- **C4**: exceptions are contained, never propagated.  Whatever step of the
`try` block throws — session start, the setup command, or anything inside
the turn loop — `BaseWorkflow.run` returns the degraded all-zero result; at
the runner level a throwing workflow becomes a degraded `WorkflowResult`
(name preserved, zero score/moves, not completed) and each position of a
sequential batch is computed independently of its siblings. -/
theorem failures_degrade_not_propagate (maxIterations dialogueLimit : Nat)
    (env : GameEnv) :
    (∀ e, BaseWorkflow.runCore maxIterations dialogueLimit env = Except.error e →
      BaseWorkflow.run maxIterations dialogueLimit env =
        { score := 0, moves := 0, gameEnded := false }) ∧
    (∀ e, env.start = Except.error e →
      BaseWorkflow.run maxIterations dialogueLimit env =
        { score := 0, moves := 0, gameEnded := false }) ∧
    (∀ init e, env.start = Except.ok init → env.setupResponse = Except.error e →
      BaseWorkflow.run maxIterations dialogueLimit env =
        { score := 0, moves := 0, gameEnded := false }) ∧
    (∀ init setupText e, env.start = Except.ok init →
      env.setupResponse = Except.ok setupText →
      runTurns env maxIterations (initialLoopState dialogueLimit init.text) =
        Except.error e →
      BaseWorkflow.run maxIterations dialogueLimit env =
        { score := 0, moves := 0, gameEnded := false }) ∧
    (∀ (w : RunnerWorkflow) e, w.run = Except.error e →
      WorkflowRunner.runWorkflow w =
        { name := w.name, score := 0, moves := 0, completed := false }) ∧
    (∀ (ws₁ ws₂ : List RunnerWorkflow) (w : RunnerWorkflow),
      WorkflowRunner.runSequential (ws₁ ++ w :: ws₂) =
        WorkflowRunner.runSequential ws₁ ++ WorkflowRunner.runWorkflow w ::
          WorkflowRunner.runSequential ws₂) := by
  refine ⟨?_, ?_, ?_, ?_, ?_, ?_⟩
  · intro e he
    simp [BaseWorkflow.run, he]
  · intro e he
    simp [BaseWorkflow.run, BaseWorkflow.runCore, he]
  · intro init e h1 h2
    simp [BaseWorkflow.run, BaseWorkflow.runCore, h1, h2]
  · intro init setupText e h1 h2 h3
    simp [BaseWorkflow.run, BaseWorkflow.runCore, h1, h2, h3]
  · intro w e he
    simp [WorkflowRunner.runWorkflow, he]
  · intro ws₁ ws₂ w
    simp [WorkflowRunner.runSequential]

/-- Witness for `failures_degrade_not_propagate`: a start call that throws,
a runner workflow that throws, and a 3-element sequential batch whose middle
workflow is the throwing one. -/
theorem failures_degrade_not_propagate_witness :
    BaseWorkflow.run 3 50 envStartFails =
      { score := 0, moves := 0, gameEnded := false } ∧
    WorkflowRunner.runWorkflow wfB =
      { name := "B", score := 0, moves := 0, completed := false } ∧
    WorkflowRunner.runSequential [wfA, wfB, wfC] =
      WorkflowRunner.runSequential [wfA] ++ WorkflowRunner.runWorkflow wfB ::
        WorkflowRunner.runSequential [wfC] :=
  ⟨(failures_degrade_not_propagate 3 50 envStartFails).2.1 "connection refused" rfl,
   (failures_degrade_not_propagate 3 50 envStartFails).2.2.2.2.1 wfB
     "session exploded" rfl,
   (failures_degrade_not_propagate 3 50 envStartFails).2.2.2.2.2 [wfA] [wfC] wfB⟩

/-- Each chunk produced by the batching loop is nonempty and no longer than
the cap. -/
theorem chunksOf_mem_length (c : Nat) (hc : 1 ≤ c) :
    ∀ l : List α, ∀ b ∈ chunksOf c l, b ≠ [] ∧ b.length ≤ c
  | [] => by simp [chunksOf]
  | x :: xs => by
    intro b hb
    rw [chunksOf] at hb
    rcases List.mem_cons.mp hb with hb | hb
    · subst hb
      refine ⟨by simp, ?_⟩
      simp only [List.length_cons, List.length_take]
      omega
    · exact chunksOf_mem_length c hc (xs.drop (c - 1)) b hb
termination_by l => l.length
decreasing_by simp; omega

/-- Concatenating the chunks gives back the input list, in order. -/
theorem chunksOf_flatten (c : Nat) (hc : 1 ≤ c) :
    ∀ l : List α, (chunksOf c l).flatten = l
  | [] => by simp [chunksOf]
  | x :: xs => by
    rw [chunksOf]
    simp only [List.flatten_cons]
    rw [chunksOf_flatten c hc (xs.drop (c - 1))]
    simp [List.take_append_drop]
termination_by l => l.length
decreasing_by simp; omega

/-- The batching loop only ever yields an empty chunk list on empty input. -/
theorem chunksOf_ne_nil (c : Nat) (x : α) (xs : List α) :
    chunksOf c (x :: xs) ≠ [] := by
  rw [chunksOf]
  simp

/-- All chunks except possibly the last have length exactly the cap. -/
theorem chunksOf_dropLast_length (c : Nat) (hc : 1 ≤ c) :
    ∀ l : List α, ∀ b ∈ (chunksOf c l).dropLast, b.length = c
  | [] => by simp [chunksOf]
  | x :: xs => by
    intro b hb
    rw [chunksOf] at hb
    rcases hxs : xs.drop (c - 1) with - | ⟨y, ys⟩
    · rw [hxs] at hb
      simp [chunksOf] at hb
    · rw [hxs] at hb
      rw [List.dropLast_cons_of_ne_nil (chunksOf_ne_nil c y ys)] at hb
      rcases List.mem_cons.mp hb with hb | hb
      · subst hb
        have hlen : c - 1 ≤ xs.length := by
          by_contra hcon
          push_neg at hcon
          have hnil : xs.drop (c - 1) = [] :=
            List.drop_eq_nil_of_le (by omega)
          rw [hxs] at hnil
          simp at hnil
        simp only [List.length_cons, List.length_take]
        omega
      · exact chunksOf_dropLast_length c hc (xs.drop (c - 1)) b (by rw [hxs]; exact hb)
termination_by l => l.length
decreasing_by simp; omega

/-- **C6**: parallel mode.  A cap of `0` (unbounded) or at least the number
of workflows runs everything as a single group; otherwise the input is
partitioned into consecutive batches of exactly the cap size (the last batch
possibly smaller), processed batch after batch.  In every case the returned
results are `runWorkflow` mapped over the input in input order. -/
theorem parallel_batching_preserves_order (ws : List RunnerWorkflow) (C : Nat) :
    WorkflowRunner.runParallel ws C = ws.map WorkflowRunner.runWorkflow ∧
    (1 ≤ C →
      (chunksOf C ws).flatten = ws ∧
      (∀ b ∈ chunksOf C ws, b ≠ [] ∧ b.length ≤ C) ∧
      (∀ b ∈ (chunksOf C ws).dropLast, b.length = C)) := by
  constructor
  · rw [WorkflowRunner.runParallel]
    by_cases h : C = 0 ∨ ws.length ≤ C
    · rw [if_pos h]
    · rw [if_neg h]
      push_neg at h
      have hc : 1 ≤ C := by omega
      rw [← List.map_flatten, chunksOf_flatten C hc]
  · intro hc
    exact ⟨chunksOf_flatten C hc ws, chunksOf_mem_length C hc ws,
      chunksOf_dropLast_length C hc ws⟩

/-- Witness for `parallel_batching_preserves_order`: three workflows with
cap 2 — batches `[A, B]` and `[C]`, results in input order. -/
theorem parallel_batching_preserves_order_witness :
    WorkflowRunner.runParallel [wfA, wfB, wfC] 2 =
      [wfA, wfB, wfC].map WorkflowRunner.runWorkflow ∧
    (chunksOf 2 [wfA, wfB, wfC]).flatten = [wfA, wfB, wfC] ∧
    (∀ b ∈ chunksOf 2 [wfA, wfB, wfC], b ≠ [] ∧ b.length ≤ 2) ∧
    (∀ b ∈ (chunksOf 2 [wfA, wfB, wfC]).dropLast, b.length = 2) :=
  ⟨(parallel_batching_preserves_order [wfA, wfB, wfC] 2).1,
   (parallel_batching_preserves_order [wfA, wfB, wfC] 2).2 (by omega)⟩

/-- Prepending a strictly smaller element preserves a first-maximiser. -/
theorem FirstArgmax.cons_of_lt {α β : Type} [LinearOrder β] {key : α → β}
    {x y : α} {t : List α} {b : α} (hxy : key x < key y)
    (h : FirstArgmax key (y :: t) b) : FirstArgmax key (x :: y :: t) b := by
  obtain ⟨l₁, l₂, heq, hlt, hle⟩ := h
  refine ⟨x :: l₁, l₂, by rw [List.cons_append, heq], ?_, hle⟩
  intro z hz
  rcases List.mem_cons.mp hz with hz | hz
  · subst hz
    cases l₁ with
    | nil =>
      rw [List.nil_append] at heq
      injection heq with h1 _
      rw [← h1]
      exact hxy
    | cons w l₁' =>
      rw [List.cons_append] at heq
      injection heq with h1 _
      have hw := hlt w (List.mem_cons_self w l₁')
      rw [← h1] at hw
      exact lt_trans hxy hw
  · exact hlt z hz

/-- Inserting a no-larger element right after the seed preserves a
first-maximiser (the tie goes to the earlier candidate). -/
theorem FirstArgmax.cons_of_ge {α β : Type} [LinearOrder β] {key : α → β}
    {x y : α} {t : List α} {b : α} (hyx : key y ≤ key x)
    (h : FirstArgmax key (x :: t) b) : FirstArgmax key (x :: y :: t) b := by
  obtain ⟨l₁, l₂, heq, hlt, hle⟩ := h
  cases l₁ with
  | nil =>
    rw [List.nil_append] at heq
    injection heq with h1 h2
    refine ⟨[], y :: l₂, ?_, by simp, ?_⟩
    · rw [List.nil_append, ← h1, ← h2]
    · intro z hz
      rcases List.mem_cons.mp hz with hz | hz
      · subst hz
        rw [← h1]
        exact hyx
      · exact hle z hz
  | cons w l₁' =>
    rw [List.cons_append] at heq
    injection heq with h1 h2
    have hxb : key x < key b := by
      have := hlt w (List.mem_cons_self w l₁')
      rw [← h1] at this
      exact this
    refine ⟨x :: y :: l₁', l₂, ?_, ?_, hle⟩
    · rw [List.cons_append, List.cons_append, ← h2, h1]
    · intro z hz
      rcases List.mem_cons.mp hz with hz | hz
      · subst hz
        exact hxb
      · rcases List.mem_cons.mp hz with hz | hz
        · subst hz
          exact lt_of_le_of_lt hyx hxb
        · exact hlt z (List.mem_cons_of_mem w hz)

/-- Prepending a strictly larger element preserves a first-minimiser. -/
theorem FirstArgmin.cons_of_gt {α β : Type} [LinearOrder β] {key : α → β}
    {x y : α} {t : List α} {b : α} (hyx : key y < key x)
    (h : FirstArgmin key (y :: t) b) : FirstArgmin key (x :: y :: t) b := by
  obtain ⟨l₁, l₂, heq, hlt, hle⟩ := h
  refine ⟨x :: l₁, l₂, by rw [List.cons_append, heq], ?_, hle⟩
  intro z hz
  rcases List.mem_cons.mp hz with hz | hz
  · subst hz
    cases l₁ with
    | nil =>
      rw [List.nil_append] at heq
      injection heq with h1 _
      rw [← h1]
      exact hyx
    | cons w l₁' =>
      rw [List.cons_append] at heq
      injection heq with h1 _
      have hw := hlt w (List.mem_cons_self w l₁')
      rw [← h1] at hw
      exact lt_trans hw hyx
  · exact hlt z hz

/-- Inserting a no-smaller element right after the seed preserves a
first-minimiser. -/
theorem FirstArgmin.cons_of_le {α β : Type} [LinearOrder β] {key : α → β}
    {x y : α} {t : List α} {b : α} (hxy : key x ≤ key y)
    (h : FirstArgmin key (x :: t) b) : FirstArgmin key (x :: y :: t) b := by
  obtain ⟨l₁, l₂, heq, hlt, hle⟩ := h
  cases l₁ with
  | nil =>
    rw [List.nil_append] at heq
    injection heq with h1 h2
    refine ⟨[], y :: l₂, ?_, by simp, ?_⟩
    · rw [List.nil_append, ← h1, ← h2]
    · intro z hz
      rcases List.mem_cons.mp hz with hz | hz
      · subst hz
        rw [← h1]
        exact hxy
      · exact hle z hz
  | cons w l₁' =>
    rw [List.cons_append] at heq
    injection heq with h1 h2
    have hbx : key b < key x := by
      have := hlt w (List.mem_cons_self w l₁')
      rw [← h1] at this
      exact this
    refine ⟨x :: y :: l₁', l₂, ?_, ?_, hle⟩
    · rw [List.cons_append, List.cons_append, ← h2, h1]
    · intro z hz
      rcases List.mem_cons.mp hz with hz | hz
      · subst hz
        exact hbx
      · rcases List.mem_cons.mp hz with hz | hz
        · subst hz
          exact lt_of_lt_of_le hbx hxy
        · exact hlt z (List.mem_cons_of_mem w hz)

/-- A strict-improvement linear scan (replace only on strictly larger key)
computes the first maximiser: ties are won by the earlier candidate. -/
theorem foldl_firstArgmax {α β : Type} [LinearOrder β] (key : α → β) :
    ∀ (xs : List α) (x : α),
      FirstArgmax key (x :: xs)
        (xs.foldl (fun best current =>
          if key best < key current then current else best) x)
  | [], x => ⟨[], [], rfl, by simp, by simp⟩
  | y :: ys, x => by
    rw [List.foldl_cons]
    by_cases hxy : key x < key y
    · rw [if_pos hxy]
      exact FirstArgmax.cons_of_lt hxy (foldl_firstArgmax key ys y)
    · rw [if_neg hxy]
      exact FirstArgmax.cons_of_ge (le_of_not_lt hxy) (foldl_firstArgmax key ys x)

/-- A strict-improvement linear scan (replace only on strictly smaller key)
computes the first minimiser: ties are won by the earlier candidate. -/
theorem foldl_firstArgmin {α β : Type} [LinearOrder β] (key : α → β) :
    ∀ (xs : List α) (x : α),
      FirstArgmin key (x :: xs)
        (xs.foldl (fun best current =>
          if key current < key best then current else best) x)
  | [], x => ⟨[], [], rfl, by simp, by simp⟩
  | y :: ys, x => by
    rw [List.foldl_cons]
    by_cases hyx : key y < key x
    · rw [if_pos hyx]
      exact FirstArgmin.cons_of_gt hyx (foldl_firstArgmin key ys y)
    · rw [if_neg hyx]
      exact FirstArgmin.cons_of_le (le_of_not_lt hyx) (foldl_firstArgmin key ys x)

/-- The zero-denominator-skipping reduce step is the plain first-max scan
over the candidates satisfying the keep predicate `¬ p`, seeded by the first
kept candidate (or the original seed, if every later candidate is skipped
and the seed itself is skippable). -/
theorem skip_foldl_filter {α β : Type} [LinearOrder β] (p : α → Prop)
    [DecidablePred p] (key : α → β) (l : List α) : ∀ x : α,
      l.foldl (fun best current =>
          if p current then best
          else if p best then current
          else if key best < key current then current else best) x =
        (if p x then
          (match l.filter (fun a => decide (¬ p a)) with
           | [] => x
           | e :: rest => rest.foldl (fun best current =>
               if key best < key current then current else best) e)
        else
          (l.filter (fun a => decide (¬ p a))).foldl (fun best current =>
            if key best < key current then current else best) x) := by
  induction l with
  | nil =>
    intro x
    by_cases hx : p x <;> simp [hx]
  | cons c t ih =>
    intro x
    rw [List.foldl_cons, List.filter_cons]
    by_cases hc : p c
    · simp only [if_pos hc]
      rw [if_neg (by simp [hc] : ¬ (decide (¬ p c) = true))]
      exact ih x
    · by_cases hx : p x
      · simp only [if_neg hc, if_pos hx]
        rw [if_pos (by simp [hc] : decide (¬ p c) = true)]
        have h := ih c
        rw [if_neg hc] at h
        exact h
      · simp only [if_neg hc, if_neg hx]
        rw [if_pos (by simp [hc] : decide (¬ p c) = true), List.foldl_cons]
        have hs : ¬ p (if key x < key c then c else x) := by
          split
          · exact hc
          · exact hx
        have h := ih (if key x < key c then c else x)
        rw [if_neg hs] at h
        exact h

/-- `reduce` with the strict-max step yields the first maximiser. -/
theorem reduceD_max_spec {α β : Type} [LinearOrder β] (key : α → β)
    (l : List α) (hne : l ≠ []) :
    ∃ b, reduceD (fun best current =>
        if key best < key current then current else best) l = some b ∧
      FirstArgmax key l b := by
  match l, hne with
  | x :: xs, _ => exact ⟨_, rfl, foldl_firstArgmax key xs x⟩

/-- `reduce` with the strict-min step yields the first minimiser. -/
theorem reduceD_min_spec {α β : Type} [LinearOrder β] (key : α → β)
    (l : List α) (hne : l ≠ []) :
    ∃ b, reduceD (fun best current =>
        if key current < key best then current else best) l = some b ∧
      FirstArgmin key l b := by
  match l, hne with
  | x :: xs, _ => exact ⟨_, rfl, foldl_firstArgmin key xs x⟩

/-- `reduce` with the skipping step: if every candidate has a zero
denominator the seed (head) wins by default; otherwise the result is the
first maximiser among the nonzero-denominator candidates. -/
theorem reduceD_skip_spec {α β : Type} [LinearOrder β] (p : α → Prop)
    [DecidablePred p] (key : α → β) (l : List α) (hne : l ≠ []) :
    ∃ b, reduceD (fun best current =>
        if p current then best
        else if p best then current
        else if key best < key current then current else best) l = some b ∧
      ((l.filter (fun a => decide (¬ p a)) = [] ∧ l.head? = some b) ∨
        FirstArgmax key (l.filter (fun a => decide (¬ p a))) b) := by
  match l, hne with
  | x :: xs, _ =>
    refine ⟨_, rfl, ?_⟩
    have hb := skip_foldl_filter p key xs x
    rw [List.filter_cons]
    by_cases hx : p x
    · rw [if_pos hx] at hb
      rw [if_neg (by simp [hx] : ¬ (decide (¬ p x) = true))]
      rcases hflt : xs.filter (fun a => decide (¬ p a)) with - | ⟨e, rest⟩
      · left
        rw [hflt] at hb
        exact ⟨rfl, by rw [hb]; rfl⟩
      · right
        rw [hflt] at hb
        rw [hb]
        exact foldl_firstArgmax key rest e
    · rw [if_neg hx] at hb
      rw [if_pos (by simp [hx] : decide (¬ p x) = true)]
      right
      rw [hb]
      exact foldl_firstArgmax key (xs.filter (fun a => decide (¬ p a))) x

/-- **C7**: each of the five comparison reductions is a first-wins linear
scan over the result set — strictly-better candidates replace the running
best, ties keep the earlier one — and the three ratio reductions skip
candidates whose denominator (moves, total tokens, estimated cost) is zero,
falling back to the head of the list only when every candidate's denominator
is zero. -/
theorem comparison_reductions_first_wins (results : List ComparisonResult)
    (hne : results ≠ []) :
    (∃ b, bestByScore results = some b ∧
      FirstArgmax (fun r => r.score) results b) ∧
    (∃ b, fastest results = some b ∧
      FirstArgmin (fun r => r.executionTimeMs) results b) ∧
    (∃ b, mostEfficient results = some b ∧
      ((results.filter (fun r => decide (¬ r.moves = 0)) = [] ∧
          results.head? = some b) ∨
        FirstArgmax (fun r => (r.score : ℚ) / (r.moves : ℚ))
          (results.filter (fun r => decide (¬ r.moves = 0))) b)) ∧
    (∃ b, mostTokenEfficient results = some b ∧
      ((results.filter (fun r => decide (¬ r.totalTokens = 0)) = [] ∧
          results.head? = some b) ∨
        FirstArgmax (fun r => (r.score : ℚ) / (r.totalTokens : ℚ))
          (results.filter (fun r => decide (¬ r.totalTokens = 0))) b)) ∧
    (∃ b, mostCostEfficient results = some b ∧
      ((results.filter (fun r => decide (¬ r.estimatedCost = 0)) = [] ∧
          results.head? = some b) ∨
        FirstArgmax (fun r => (r.score : ℚ) / r.estimatedCost)
          (results.filter (fun r => decide (¬ r.estimatedCost = 0))) b)) := by
  refine ⟨?_, ?_, ?_, ?_, ?_⟩
  · exact reduceD_max_spec (fun r => r.score) results hne
  · exact reduceD_min_spec (fun r => r.executionTimeMs) results hne
  · exact reduceD_skip_spec (fun r => r.moves = 0)
      (fun r => (r.score : ℚ) / (r.moves : ℚ)) results hne
  · exact reduceD_skip_spec (fun r => r.totalTokens = 0)
      (fun r => (r.score : ℚ) / (r.totalTokens : ℚ)) results hne
  · exact reduceD_skip_spec (fun r => r.estimatedCost = 0)
      (fun r => (r.score : ℚ) / r.estimatedCost) results hne

/-- Witness for `comparison_reductions_first_wins` on the three-row sample
(one zero-moves, one zero-tokens, one zero-cost candidate; two ratio ties). -/
theorem comparison_reductions_first_wins_witness :
    (∃ b, bestByScore sampleResults = some b ∧
      FirstArgmax (fun r => r.score) sampleResults b) ∧
    (∃ b, fastest sampleResults = some b ∧
      FirstArgmin (fun r => r.executionTimeMs) sampleResults b) ∧
    (∃ b, mostEfficient sampleResults = some b ∧
      ((sampleResults.filter (fun r => decide (¬ r.moves = 0)) = [] ∧
          sampleResults.head? = some b) ∨
        FirstArgmax (fun r => (r.score : ℚ) / (r.moves : ℚ))
          (sampleResults.filter (fun r => decide (¬ r.moves = 0))) b)) ∧
    (∃ b, mostTokenEfficient sampleResults = some b ∧
      ((sampleResults.filter (fun r => decide (¬ r.totalTokens = 0)) = [] ∧
          sampleResults.head? = some b) ∨
        FirstArgmax (fun r => (r.score : ℚ) / (r.totalTokens : ℚ))
          (sampleResults.filter (fun r => decide (¬ r.totalTokens = 0))) b)) ∧
    (∃ b, mostCostEfficient sampleResults = some b ∧
      ((sampleResults.filter (fun r => decide (¬ r.estimatedCost = 0)) = [] ∧
          sampleResults.head? = some b) ∨
        FirstArgmax (fun r => (r.score : ℚ) / r.estimatedCost)
          (sampleResults.filter (fun r => decide (¬ r.estimatedCost = 0))) b)) :=
  comparison_reductions_first_wins sampleResults (by simp [sampleResults])

/-- Witness for `seeded_system_message_evicted`: capacity 2, seeded system
prompt, two later appends — the system message is gone. -/
theorem seeded_system_message_evicted_witness :
    (((Dialogue.new 2).system "be helpful").applyOps
        [AppendOp.user "a", AppendOp.user "b"]).messages =
      dropExcess 2 ([AppendOp.user "a", AppendOp.user "b"].map AppendOp.toMessage) ∧
    ({ role := Role.system, content := "be helpful" } : Message) ∉
      (((Dialogue.new 2).system "be helpful").applyOps
        [AppendOp.user "a", AppendOp.user "b"]).messages :=
  ⟨(seeded_system_message_evicted 2 "be helpful"
      [AppendOp.user "a", AppendOp.user "b"] (by decide)).1,
   (seeded_system_message_evicted 2 "be helpful"
      [AppendOp.user "a", AppendOp.user "b"] (by decide)).2 (by decide)⟩

/-- Running the accumulation fold from `acc` instead of zero adds `acc`. -/
theorem getTotalUsage_foldl_aux (l : List (String × Usage)) : ∀ acc : Usage,
    l.foldl (fun acc kv => acc.add kv.2) acc = acc.add (getTotalUsage l) := by
  induction l with
  | nil =>
    intro acc
    simp [getTotalUsage, Usage.add, Usage.zero]
  | cons kv rest ih =>
    intro acc
    rw [List.foldl_cons, ih (acc.add kv.2)]
    have h2 : getTotalUsage (kv :: rest) = (Usage.zero.add kv.2).add (getTotalUsage rest) := by
      rw [getTotalUsage, List.foldl_cons, ih (Usage.zero.add kv.2)]
    rw [h2]
    simp [Usage.add, Usage.zero, Usage.mk.injEq]
    omega

/-- Unfolding one entry of the total. -/
theorem getTotalUsage_cons (kv : String × Usage) (rest : List (String × Usage)) :
    getTotalUsage (kv :: rest) = (Usage.zero.add kv.2).add (getTotalUsage rest) := by
  rw [getTotalUsage, List.foldl_cons, getTotalUsage_foldl_aux]

/-- Tracking usage for a model adds exactly that usage to the total:
accumulation is additive, never overwriting. -/
theorem getTotalUsage_track (l : List (String × Usage)) (modelName : String)
    (u : Usage) :
    getTotalUsage (trackModelUsage l modelName u) = (getTotalUsage l).add u := by
  induction l with
  | nil =>
    simp [trackModelUsage, getTotalUsage, Usage.add, Usage.zero]
  | cons kv rest ih =>
    obtain ⟨k, v⟩ := kv
    rw [trackModelUsage]
    by_cases hk : k = modelName
    · rw [if_pos hk]
      simp only [getTotalUsage_cons]
      simp [Usage.add, Usage.zero, Usage.mk.injEq]
      omega
    · rw [if_neg hk]
      simp only [getTotalUsage_cons, ih]
      simp [Usage.add, Usage.zero, Usage.mk.injEq]
      omega

/-- **C8**: `getTotalTokenUsage` is the componentwise sum of the
orchestrator's own accumulated usage and every child agent's accumulated
usage, recomputed from the current states at each call: tracking `u` against
a child afterwards shifts the reported totals by exactly `u`, and two
children holding `{10,20,30}` and `{5,5,10}` contribute `{15,25,40}` on top
of whatever the orchestrator itself accumulated. -/
theorem orchestrator_usage_recursive_sum (o : AgentOrchestrator) :
    (o.getTotalTokenUsage =
      (((((getTotalUsage o.own).add (getTotalUsage o.gameAgent)).add
        (getTotalUsage o.memoryAgent)).add (getTotalUsage o.goalAgent)).add
        (getTotalUsage o.puzzleSolverAgent)).add (getTotalUsage o.mapAgent)) ∧
    (∀ modelName u,
      ({ o with gameAgent := trackModelUsage o.gameAgent modelName u } :
        AgentOrchestrator).getTotalTokenUsage = o.getTotalTokenUsage.add u) ∧
    (∀ own : List (String × Usage),
      ({ own := own
         gameAgent := [("child1",
           { promptTokens := 10, completionTokens := 20, totalTokens := 30 })]
         memoryAgent := [("child2",
           { promptTokens := 5, completionTokens := 5, totalTokens := 10 })]
         goalAgent := [], puzzleSolverAgent := [], mapAgent := [] } :
        AgentOrchestrator).getTotalTokenUsage =
      (getTotalUsage own).add
        { promptTokens := 15, completionTokens := 25, totalTokens := 40 }) := by
  refine ⟨?_, ?_, ?_⟩
  · simp [AgentOrchestrator.getTotalTokenUsage, Usage.add]
  · intro modelName u
    simp only [AgentOrchestrator.getTotalTokenUsage, getTotalUsage_track]
    simp [Usage.add, Usage.mk.injEq]
    omega
  · intro own
    simp [AgentOrchestrator.getTotalTokenUsage, getTotalUsage, Usage.add,
      Usage.zero, Usage.mk.injEq]

/-- Appending below capacity does not trim. -/
theorem Dialogue.push_messages_of_lt (d : Dialogue) (m : Message)
    (h : d.messages.length < d.limit) :
    (d.push m).messages = d.messages ++ [m] := by
  rw [Dialogue.push_messages]
  exact dropExcess_of_le (by simp; omega)

/-- **C5** (amended): when the generated decision selects the registered
tool and its handler succeeds, `processMessage` appends, in order: the user
message, the tool-result message (correlated by the agent id), and the final
assistant reply of the follow-up generation — the success path appends no
intermediate assistant "tool-selection" message — and the returned string is
exactly that final reply. -/
theorem tool_dispatch_success_dialogue (env : GenEnv) (agent : BaseAgent)
    (st : AgentState) (message : String) (tl : AgentTool)
    (params toolResult reply : String) (u1 u2 : Usage)
    (hroom : st.dialogue.messages.length + 3 ≤ st.dialogue.limit)
    (htools : agent.tools = [tl])
    (hdecision : env.genObject (st.dialogue.user message).messages =
      Except.ok (Decision.call tl.name params, u1))
    (hexec : tl.execute params = Except.ok toolResult)
    (hreply : env.genText
        ((st.dialogue.user message).tool agent.id tl.name toolResult).messages =
      Except.ok (reply, u2)) :
    ∃ st', processMessage env agent st message = Except.ok (reply, st') ∧
      st'.dialogue.messages = st.dialogue.messages ++
        [ { role := Role.user, content := message },
          { role := Role.tool, content := toolResult
            toolCallId := some agent.id, toolName := some tl.name },
          { role := Role.assistant, content := reply } ] := by
  have hfind : agent.tools.find? (fun t => t.name = tl.name) = some tl := by
    rw [htools]
    simp [List.find?]
  have hlim1 : ((st.dialogue.user message)).limit = st.dialogue.limit :=
    Dialogue.push_limit _ _
  have h1 : (st.dialogue.user message).messages =
      st.dialogue.messages ++ [{ role := Role.user, content := message }] :=
    Dialogue.push_messages_of_lt _ _ (by omega)
  have hlim2 : ((st.dialogue.user message).tool agent.id tl.name toolResult).limit =
      st.dialogue.limit := by
    rw [Dialogue.tool, Dialogue.push_limit, hlim1]
  have h2 : ((st.dialogue.user message).tool agent.id tl.name toolResult).messages =
      st.dialogue.messages ++
        [ { role := Role.user, content := message },
          { role := Role.tool, content := toolResult
            toolCallId := some agent.id, toolName := some tl.name } ] := by
    rw [Dialogue.tool, Dialogue.push_messages_of_lt _ _ (by rw [hlim1, h1]; simp; omega)]
    rw [h1, List.append_assoc]
    rfl
  have h3 : (((st.dialogue.user message).tool agent.id tl.name
        toolResult).assistant reply).messages =
      st.dialogue.messages ++
        [ { role := Role.user, content := message },
          { role := Role.tool, content := toolResult
            toolCallId := some agent.id, toolName := some tl.name },
          { role := Role.assistant, content := reply } ] := by
    rw [Dialogue.assistant, Dialogue.push_messages_of_lt _ _ (by rw [hlim2, h2]; simp; omega)]
    rw [h2, List.append_assoc]
    rfl
  refine ⟨{ dialogue := ((st.dialogue.user message).tool agent.id tl.name
              toolResult).assistant reply
            modelUsage := trackModelUsage
              (trackModelUsage st.modelUsage agent.modelId u1) agent.modelId u2 },
    ?_, h3⟩
  have hlen : agent.tools.length > 0 := by rw [htools]; simp
  simp only [processMessage, if_pos hlen, processWithTools, AgentState.track,
    hdecision, hfind, hexec, processToolResult, hreply]

/-- In the successful tool path no assistant "tool-selection" message is
appended: for the concrete one-tool agent the resulting dialogue roles are
system prompt, user message, tool result, final assistant reply — the role
pattern user / assistant / tool / assistant does not occur in order — while
the returned string is the final reply. -/
theorem tool_dispatch_no_selection_message :
    (processMessage lampGenEnv lampAgent lampStartState "go north").toOption.map
        (fun pr => rolesOf pr.2.dialogue) =
      some [Role.system, Role.user, Role.tool, Role.assistant] ∧
    (processMessage lampGenEnv lampAgent lampStartState "go north").toOption.map
        (fun pr => roleSubseq
          [Role.user, Role.assistant, Role.tool, Role.assistant]
          (rolesOf pr.2.dialogue)) = some false ∧
    (processMessage lampGenEnv lampAgent lampStartState "go north").toOption.map
        Prod.fst = some "The lamp is now lit." :=
  ⟨rfl, rfl, rfl⟩

/-- Witness for `tool_dispatch_success_dialogue` on the concrete one-tool
agent. -/
theorem tool_dispatch_success_dialogue_witness :
    ∃ st', processMessage lampGenEnv lampAgent lampStartState "go north" =
        Except.ok ("The lamp is now lit.", st') ∧
      st'.dialogue.messages = lampStartState.dialogue.messages ++
        [ { role := Role.user, content := "go north" },
          { role := Role.tool, content := "The lamp is lit."
            toolCallId := some "agent-1", toolName := some "light_lamp" },
          { role := Role.assistant, content := "The lamp is now lit." } ] :=
  tool_dispatch_success_dialogue lampGenEnv lampAgent lampStartState "go north"
    lampTool "brass lantern" "The lamp is lit." "The lamp is now lit."
    (Usage.mk 3 2 5) (Usage.mk 4 3 7) (by decide) rfl rfl rfl rfl

/-- Trace characterisation of the loop counters under a pure, non-terminating
environment: after `fuel` iterations the tracked `moves` (resp. `score`) is
the fold of the successful `Moves:` (resp. `Score:`) extractions over the
texts seen so far — a failed extraction (`none`) retains the previous value
via `getD`, a successful one overwrites it. -/
theorem runTurns_counters_trace (env : GameEnv)
    (decideF : Nat → Dialogue → String) (respF : Nat → String)
    (texts : Nat → String)
    (hdec : ∀ i d, env.decide i d = Except.ok (decideF i d))
    (hresp : ∀ i c, env.respond i c = Except.ok (respF i))
    (hnoend : ∀ i, isGameEnd (respF i) = false)
    (htexts : ∀ i, texts (i + 1) = respF i) :
    ∀ (fuel : Nat) (st : LoopState), st.gameEnded = false →
      st.text = texts st.iter →
      ∃ st', runTurns env fuel st = Except.ok st' ∧
        st'.iter = st.iter + fuel ∧ st'.gameEnded = false ∧
        st'.text = texts (st.iter + fuel) ∧
        st'.moves = (List.range fuel).foldl
          (fun acc j => (extractMoves (texts (st.iter + j))).getD acc) st.moves ∧
        st'.score = (List.range fuel).foldl
          (fun acc j => (extractScore (texts (st.iter + j))).getD acc) st.score := by
  intro fuel
  induction fuel with
  | zero =>
    intro st h1 h2
    exact ⟨st, rfl, by omega, h1, by simpa using h2, by simp, by simp⟩
  | succ n ih =>
    intro st h1 h2
    obtain ⟨st', hrun, hiter, hend, htext, hmoves, hscore⟩ := ih
      { iter := st.iter + 1, text := respF st.iter
        dialogue := st.dialogue.user (respF st.iter)
        score := (extractScore st.text).getD st.score
        moves := (extractMoves st.text).getD st.moves, gameEnded := false }
      rfl (by simpa using (htexts st.iter).symm)
    have hiter' : st'.iter = st.iter + 1 + n := hiter
    have htext' : st'.text = texts (st.iter + 1 + n) := htext
    have harg : ∀ j : Nat, st.iter + 1 + j = st.iter + Nat.succ j := by
      intro j
      omega
    refine ⟨st', ?_, by omega, hend, ?_, ?_, ?_⟩
    · simp only [runTurns, hdec st.iter st.dialogue, hresp st.iter, hnoend st.iter]
      simpa using hrun
    · rw [htext']
      congr 1
      omega
    · have hm : st'.moves = (List.range n).foldl
          (fun acc j => (extractMoves (texts (st.iter + 1 + j))).getD acc)
          ((extractMoves st.text).getD st.moves) := hmoves
      rw [hm, List.range_succ_eq_map, List.foldl_cons, List.foldl_map]
      simp only [harg]
      congr 1
      rw [h2]
      simp
    · have hs : st'.score = (List.range n).foldl
          (fun acc j => (extractScore (texts (st.iter + 1 + j))).getD acc)
          ((extractScore st.text).getD st.score) := hscore
      rw [hs, List.range_succ_eq_map, List.foldl_cons, List.foldl_map]
      simp only [harg]
      congr 1
      rw [h2]
      simp

/-- **C9** (amended): over a full run the tracked counters equal the
retention fold of the extractions — each turn a successful extraction
overwrites, a failed one retains the previous value — including the final
re-extraction after the loop; monotonicity of `moves` therefore holds
exactly when the successively extracted values are non-decreasing, which the
code does not itself enforce. -/
theorem counters_follow_last_extraction (maxIterations dialogueLimit : Nat)
    (env : GameEnv) (init : StartResult) (setupText : String)
    (decideF : Nat → Dialogue → String) (respF : Nat → String)
    (texts : Nat → String)
    (hstart : env.start = Except.ok init)
    (hsetup : env.setupResponse = Except.ok setupText)
    (hdec : ∀ i d, env.decide i d = Except.ok (decideF i d))
    (hresp : ∀ i c, env.respond i c = Except.ok (respF i))
    (hnoend : ∀ i, isGameEnd (respF i) = false)
    (htexts0 : texts 0 = init.text)
    (htexts : ∀ i, texts (i + 1) = respF i) :
    ∃ st, runTurns env maxIterations (initialLoopState dialogueLimit init.text) =
        Except.ok st ∧
      st.moves = (List.range maxIterations).foldl
        (fun acc j => (extractMoves (texts j)).getD acc) 0 ∧
      st.score = (List.range maxIterations).foldl
        (fun acc j => (extractScore (texts j)).getD acc) 0 ∧
      BaseWorkflow.run maxIterations dialogueLimit env =
        { score := (List.range (maxIterations + 1)).foldl
            (fun acc j => (extractScore (texts j)).getD acc) 0
          moves := (List.range (maxIterations + 1)).foldl
            (fun acc j => (extractMoves (texts j)).getD acc) 0
          gameEnded := false } := by
  obtain ⟨st, hrun, hiter, hend, htext, hmoves, hscore⟩ :=
    runTurns_counters_trace env decideF respF texts hdec hresp hnoend htexts
      maxIterations (initialLoopState dialogueLimit init.text) rfl
      (by simp [initialLoopState, htexts0])
  simp only [initialLoopState, Nat.zero_add] at hiter htext hmoves hscore
  have hfoldm : (List.range (maxIterations + 1)).foldl
      (fun acc j => (extractMoves (texts j)).getD acc) 0 =
      (extractMoves (texts maxIterations)).getD ((List.range maxIterations).foldl
        (fun acc j => (extractMoves (texts j)).getD acc) 0) := by
    rw [List.range_succ, List.foldl_append]
    rfl
  have hfolds : (List.range (maxIterations + 1)).foldl
      (fun acc j => (extractScore (texts j)).getD acc) 0 =
      (extractScore (texts maxIterations)).getD ((List.range maxIterations).foldl
        (fun acc j => (extractScore (texts j)).getD acc) 0) := by
    rw [List.range_succ, List.foldl_append]
    rfl
  refine ⟨st, hrun, hmoves, hscore, ?_⟩
  simp only [BaseWorkflow.run, BaseWorkflow.runCore, hstart, hsetup, hrun, hend,
    htext, hmoves, hscore, hfoldm, hfolds]

/-- **C9** as stated is false: with successive responses "Moves: 5" and
"Moves: 3" — both successfully extractable — the tracked moves value
decreases from 5 after two turns to 3 after three turns, and the finished
run reports 3. -/
theorem moves_not_monotone_counterexample :
    extractMoves "Moves: 5" = some 5 ∧
    extractMoves "Moves: 3" = some 3 ∧
    (runTurns envMovesBackwards 2
        (initialLoopState 50 "West of House")).toOption.map LoopState.moves =
      some 5 ∧
    (runTurns envMovesBackwards 3
        (initialLoopState 50 "West of House")).toOption.map LoopState.moves =
      some 3 ∧
    (BaseWorkflow.run 3 50 envMovesBackwards).moves = 3 ∧
    (3 : Nat) < 5 :=
  ⟨rfl, rfl, rfl, rfl, rfl, by omega⟩

/-- Witness for `counters_follow_last_extraction` on the concrete
backwards-moves session. -/
theorem counters_follow_last_extraction_witness :
    ∃ st, runTurns envMovesBackwards 3 (initialLoopState 50 "West of House") =
        Except.ok st ∧
      st.moves = (List.range 3).foldl
        (fun acc j => (extractMoves ((fun j => if j = 0 then "West of House"
          else if j = 1 then "Moves: 5" else if j = 2 then "Moves: 3"
          else "Time passes.") j)).getD acc) 0 ∧
      st.score = (List.range 3).foldl
        (fun acc j => (extractScore ((fun j => if j = 0 then "West of House"
          else if j = 1 then "Moves: 5" else if j = 2 then "Moves: 3"
          else "Time passes.") j)).getD acc) 0 ∧
      BaseWorkflow.run 3 50 envMovesBackwards =
        { score := (List.range (3 + 1)).foldl
            (fun acc j => (extractScore ((fun j => if j = 0 then "West of House"
              else if j = 1 then "Moves: 5" else if j = 2 then "Moves: 3"
              else "Time passes.") j)).getD acc) 0
          moves := (List.range (3 + 1)).foldl
            (fun acc j => (extractMoves ((fun j => if j = 0 then "West of House"
              else if j = 1 then "Moves: 5" else if j = 2 then "Moves: 3"
              else "Time passes.") j)).getD acc) 0
          gameEnded := false } :=
  counters_follow_last_extraction 3 50 envMovesBackwards
    { sessionId := "s3", text := "West of House" } "Maximum verbosity."
    (fun _ _ => "wait")
    (fun i => if i = 0 then "Moves: 5" else if i = 1 then "Moves: 3"
      else "Time passes.")
    (fun j => if j = 0 then "West of House" else if j = 1 then "Moves: 5"
      else if j = 2 then "Moves: 3" else "Time passes.")
    rfl rfl (fun _ _ => rfl) (fun _ _ => rfl)
    (fun i => by
      rcases i with - | (- | i)
      · decide
      · decide
      · exact (by decide : isGameEnd "Time passes." = false))
    rfl
    (fun i => by rcases i with - | (- | i) <;> rfl)
